import Mathlib

/-!
Shallow embedding of the query-protocol client layer of the loom repository
(file `loom/query.py`): the row codec (`data_row_to_protobuf`,
`protobuf_to_data_row`, `none_to_protobuf`), the query-session operations of
`QueryServer` (`sample`, `score`, `batch_score`, `_entropy`, `entropy`,
`mutual_information`, `score_derivative`), and the statistical estimate type.

Python values occupying row slots are modelled by the tagged type `PyVal`:
the Python codec dispatches on the exact runtime class via the dictionary
lookup `fields[type(val)]`, so `bool` (although a subclass of `int` in
Python) selects the `booleans` field, plain `int` selects `counts`, `float`
selects `reals`, and any other exact type (represented here by the
constructor `pyStr`) raises `KeyError`.  Machine floats are modelled by `Rat`;
none of the verified claims depends on rounding behaviour.  Python exceptions
are modelled by `Except String`, carrying the name of the raised exception or
the message it was constructed with.  Protobuf messages are modelled as
structures whose `Clear()` state has empty lists and `NONE` sparsity, exactly
as protobuf default-initializes them.
-/

namespace Loom

/-- A Python value occupying one slot of a logical data row.  `pyStr` stands
for a value of any exact type other than `bool`, `int`, `float` (the spec
example uses a string), which the codec's type-dispatch dictionary does not
know. -/
inductive PyVal where
  | pyBool (b : Bool)
  | pyInt (n : Int)
  | pyFloat (q : Rat)
  | pyStr (s : String)
deriving DecidableEq, Repr

/-- Sparsity kinds of `ProductValue.Observed` in `loom/schema.proto`:
`NONE`, `DENSE`, `SPARSE`. -/
inductive Sparsity where
  | NONE
  | DENSE
  | SPARSE
deriving DecidableEq, Repr

/-- The `ProductValue.Observed` protobuf message: a sparsity kind, a dense
boolean mask, and a sparse index list. -/
structure Observed where
  sparsity : Sparsity
  dense : List Bool
  sparse : List Nat
deriving DecidableEq, Repr

/-- The `ProductValue` protobuf message: an observation mask plus the three
typed value lists `booleans`, `counts`, `reals`. -/
structure ProductValue where
  observed : Observed
  booleans : List Bool
  counts : List Int
  reals : List Rat
deriving DecidableEq, Repr

/-- A freshly `Clear()`ed `ProductValue`: default sparsity (`NONE`, protobuf
enum value 0) and empty lists. -/
def ProductValue.cleared : ProductValue :=
  { observed := { sparsity := Sparsity.NONE, dense := [], sparse := [] }
    booleans := []
    counts := []
    reals := [] }

/-- The `ProductValue.Diff` protobuf message, with its `neg` and `pos`
halves. -/
structure Diff where
  neg : ProductValue
  pos : ProductValue
deriving DecidableEq, Repr

/-- `none_to_protobuf(diff)`: `diff.Clear()`, then set both `neg` and `pos`
observation sparsity to `NONE`.  Mutation of the caller's message is modelled
by returning the resulting `Diff`. -/
def none_to_protobuf : Diff :=
  { neg := ProductValue.cleared
    pos := ProductValue.cleared }

/-- One iteration of the encoding loop of `data_row_to_protobuf`: append
`val is not None` to the dense mask, and if observed append the value to the
typed list selected by `fields[type(val)]`; a value of an unlisted exact type
raises `KeyError`. -/
def encodeStep (pos : ProductValue) (val : Option PyVal) : Except String ProductValue :=
  let pos := { pos with observed := { pos.observed with dense := pos.observed.dense ++ [val.isSome] } }
  match val with
  | Option.none => Except.ok pos
  | some (PyVal.pyBool b) => Except.ok { pos with booleans := pos.booleans ++ [b] }
  | some (PyVal.pyInt n) => Except.ok { pos with counts := pos.counts ++ [n] }
  | some (PyVal.pyFloat q) => Except.ok { pos with reals := pos.reals ++ [q] }
  | some (PyVal.pyStr _) => Except.error "KeyError"

/-- The `for val in data_row` loop of `data_row_to_protobuf`, threading the
`pos` message being built. -/
def encodeFold : List (Option PyVal) → ProductValue → Except String ProductValue
  | [], pos => Except.ok pos
  | v :: rest, pos =>
    match encodeStep pos v with
    | Except.ok pos2 => encodeFold rest pos2
    | Except.error e => Except.error e

/-- The `pos` message of a freshly cleared diff right after
`data_row_to_protobuf` sets `diff.pos.observed.sparsity = DENSE`: empty lists
and a `DENSE` mask. -/
def densePos0 : ProductValue :=
  { observed := { sparsity := Sparsity.DENSE, dense := [], sparse := [] }
    booleans := []
    counts := []
    reals := [] }

/-- `data_row_to_protobuf(data_row, diff)`: if every slot is `None`, delegate
to `none_to_protobuf`; otherwise `Clear()` the diff, set `neg` sparsity to
`NONE` and `pos` sparsity to `DENSE`, then run the encoding loop. -/
def data_row_to_protobuf (data_row : List (Option PyVal)) : Except String Diff :=
  if data_row.all Option.isNone then Except.ok none_to_protobuf
  else
    match encodeFold data_row densePos0 with
    | Except.ok pos => Except.ok { neg := ProductValue.cleared, pos := pos }
    | Except.error e => Except.error e

/-- The iterator `packed = chain(data.booleans, data.counts, data.reals)`
of `protobuf_to_data_row`, as the list of values it yields. -/
def ProductValue.packed (pv : ProductValue) : List PyVal :=
  pv.booleans.map PyVal.pyBool ++ pv.counts.map PyVal.pyInt ++ pv.reals.map PyVal.pyFloat

/-- The list comprehension of `protobuf_to_data_row`: walk the dense mask,
consuming `next(packed)` for each observed slot.  `next` on an exhausted
iterator raises `StopIteration`; values of `packed` left unconsumed when the
mask is exhausted are silently discarded, as in the Python comprehension. -/
def decodeFold : List Bool → List PyVal → Except String (List (Option PyVal))
  | [], _ => Except.ok []
  | false :: rest, vals =>
    match decodeFold rest vals with
    | Except.ok tail => Except.ok (Option.none :: tail)
    | Except.error e => Except.error e
  | true :: _, [] => Except.error "StopIteration"
  | true :: rest, v :: vals =>
    match decodeFold rest vals with
    | Except.ok tail => Except.ok (some v :: tail)
    | Except.error e => Except.error e

/-- `protobuf_to_data_row(diff)`: assert `diff.neg.observed.sparsity == NONE`,
then rebuild the row from `diff.pos.observed.dense` and the packed value
iterator.  The `pos` sparsity field is never consulted; for a `NONE`-mask
diff the dense list is empty and the result is the empty row. -/
def protobuf_to_data_row (diff : Diff) : Except String (List (Option PyVal)) :=
  if diff.neg.observed.sparsity = Sparsity.NONE then
    decodeFold diff.pos.observed.dense diff.pos.packed
  else Except.error "AssertionError"

/-- The boolean values of a row's observed slots, in slot order (the contents
the encoding loop appends to `pos.booleans`). -/
def rowBools (r : List (Option PyVal)) : List Bool :=
  r.filterMap fun v =>
    match v with
    | some (PyVal.pyBool b) => some b
    | _ => Option.none

/-- The integer-count values of a row's observed slots, in slot order. -/
def rowCounts (r : List (Option PyVal)) : List Int :=
  r.filterMap fun v =>
    match v with
    | some (PyVal.pyInt n) => some n
    | _ => Option.none

/-- The real values of a row's observed slots, in slot order. -/
def rowReals (r : List (Option PyVal)) : List Rat :=
  r.filterMap fun v =>
    match v with
    | some (PyVal.pyFloat q) => some q
    | _ => Option.none

/-- True when some observed slot of the row holds a value whose exact type is
outside the codec's dispatch dictionary. -/
def rowHasStr (r : List (Option PyVal)) : Bool :=
  r.any fun v =>
    match v with
    | some (PyVal.pyStr _) => true
    | _ => false

/-- A row is type-segregated when its observed values, read in slot order,
already appear in the wire's fixed type-priority order: all booleans, then
all integer counts, then all reals (in particular no slot holds a value of an
unsupported type).  This is exactly the class of rows on which the positional
decoder reassembles slots correctly. -/
def typeSegregated (r : List (Option PyVal)) : Prop :=
  r.filterMap id =
    (rowBools r).map PyVal.pyBool ++ (rowCounts r).map PyVal.pyInt ++ (rowReals r).map PyVal.pyFloat

instance (r : List (Option PyVal)) : Decidable (typeSegregated r) := by
  unfold typeSegregated
  infer_instance

/-- True exactly when an `Except` computation raised. -/
def exceptIsError {ε α : Type} : Except ε α → Bool
  | Except.error _ => true
  | Except.ok _ => false

/-- A wire diff whose mask observes one slot while the typed lists hold two
values: one surplus value beyond the observed slot count. -/
def surplusDiff : Diff :=
  { neg := ProductValue.cleared
    pos := { observed := { sparsity := Sparsity.DENSE, dense := [true], sparse := [] }
             booleans := [true, false]
             counts := []
             reals := [] } }

/-- A wire diff whose mask observes two slots while the typed lists hold a
single value: the packed iterator runs out early. -/
def shortDiff : Diff :=
  { neg := ProductValue.cleared
    pos := { observed := { sparsity := Sparsity.DENSE, dense := [true, true], sparse := [] }
             booleans := [true]
             counts := []
             reals := [] } }

/-- The fields of a `Query.Response` protobuf message consumed by the session
operations: the correlation id, the engine-reported error strings, and the
kind-specific payloads (`sample.samples`, `score.score`, `entropy.means`,
`entropy.variances`, `score_derivative.ids`, `score_derivative.score_diffs`).
Each operation is modelled as a function of the FIFO-delivered response. -/
structure Response where
  id : String
  error : List String
  sampleSamples : List Diff
  scoreScore : Rat
  entropyMeans : List Rat
  entropyVariances : List Rat
  scoreDerivativeIds : List Nat
  scoreDerivativeScoreDiffs : List Rat
deriving DecidableEq, Repr

/-- The per-sample reconciliation loop of `QueryServer.sample`
(`for i, val in enumerate(data_out)`): a slot decoded as `None` is asserted
to be a not-to-sample slot (`assert to_sample[i] is False`, an out-of-range
index raising `IndexError` first) and overwritten with
`conditioning_row[i]`; a slot the engine echoed keeps the echoed value. -/
def reconcileFold (to_sample : List Bool) (cond : List (Option PyVal)) :
    List (Option PyVal) → Nat → Except String (List (Option PyVal))
  | [], _ => Except.ok []
  | some v :: rest, i =>
    match reconcileFold to_sample cond rest (i + 1) with
    | Except.ok tail => Except.ok (some v :: tail)
    | Except.error e => Except.error e
  | Option.none :: rest, i =>
    match to_sample[i]? with
    | Option.none => Except.error "IndexError"
    | some true => Except.error "AssertionError"
    | some false =>
      match cond[i]? with
      | Option.none => Except.error "IndexError"
      | some c =>
        match reconcileFold to_sample cond rest (i + 1) with
        | Except.ok tail => Except.ok (c :: tail)
        | Except.error e => Except.error e

/-- The `for sample in response.sample.samples` loop of `QueryServer.sample`:
decode each returned diff, run the reconciliation loop, and collect the rows
in order. -/
def sampleFold (to_sample : List Bool) (cond : List (Option PyVal)) :
    List Diff → Except String (List (List (Option PyVal)))
  | [] => Except.ok []
  | d :: ds =>
    match protobuf_to_data_row d with
    | Except.error e => Except.error e
    | Except.ok data_out =>
      match reconcileFold to_sample cond data_out 0 with
      | Except.error e => Except.error e
      | Except.ok row =>
        match sampleFold to_sample cond ds with
        | Except.ok rows => Except.ok (row :: rows)
        | Except.error e => Except.error e

/-- `QueryServer.sample(to_sample, conditioning_row)`: assert equal lengths,
encode the conditioning row into the request (any `KeyError` raised before a
frame is sent), send and receive, raise the newline-joined engine errors if
any, then decode and reconcile each returned sample.  The received response
is a parameter, the engine being an external process; the request payload
(correlation id, target mask, sample count) is write-only and does not
influence the returned value. -/
def sample (to_sample : List Bool) (conditioning_row : List (Option PyVal))
    (resp : Response) : Except String (List (List (Option PyVal))) :=
  if to_sample.length = conditioning_row.length then
    match data_row_to_protobuf conditioning_row with
    | Except.error e => Except.error e
    | Except.ok _ =>
      if resp.error = [] then sampleFold to_sample conditioning_row resp.sampleSamples
      else Except.error (String.intercalate "\n" resp.error)
  else Except.error "AssertionError"

/-- `QueryServer._receive_score`: raise the newline-joined engine errors if
the response carries any, else return `response.score.score`. -/
def _receive_score (resp : Response) : Except String Rat :=
  if resp.error = [] then Except.ok resp.scoreScore
  else Except.error (String.intercalate "\n" resp.error)

/-- `QueryServer.score(row)`: `_send_score` (build a request with a fresh
correlation id `reqId` and the encoded row, then send) followed by
`_receive_score`.  The response id is never compared with `reqId`. -/
def score (reqId : String) (row : List (Option PyVal)) (resp : Response) :
    Except String Rat :=
  match data_row_to_protobuf row with
  | Except.error e => Except.error e
  | Except.ok _ => _receive_score resp

/-- The response-processing tail of `QueryServer.score_derivative`: raise the
newline-joined engine errors if any, else return
`zip(response.score_derivative.ids, response.score_derivative.score_diffs)`. -/
def _score_derivative_receive (resp : Response) : Except String (List (Nat × Rat)) :=
  if resp.error = [] then
    Except.ok (resp.scoreDerivativeIds.zip resp.scoreDerivativeScoreDiffs)
  else Except.error (String.intercalate "\n" resp.error)

/-- `QueryServer.score_derivative(update_row, score_rows, row_limit)`: encode
each comparison row when given, encode the update row, send the request
(with `row_limit` in its payload), then process the response. -/
def score_derivative (update_row : List (Option PyVal))
    (score_rows : Option (List (List (Option PyVal)))) (row_limit : Nat)
    (resp : Response) : Except String (List (Nat × Rat)) :=
  match (match score_rows with
         | some srs => srs.mapM data_row_to_protobuf
         | Option.none => Except.ok []) with
  | Except.error e => Except.error e
  | Except.ok _ =>
    match data_row_to_protobuf update_row with
    | Except.error e => Except.error e
    | Except.ok _ => _score_derivative_receive resp

/-- A sample diff in which the engine echoed the value 8 at slot 0. -/
def echoDiff8 : Diff :=
  { neg := ProductValue.cleared
    pos := { observed := { sparsity := Sparsity.DENSE, dense := [true], sparse := [] }
             booleans := []
             counts := [8]
             reals := [] } }

/-- A response whose single sample echoes the value 8 at the (unsampled)
slot 0. -/
def c3resp : Response :=
  { id := "resp-1", error := [], sampleSamples := [echoDiff8], scoreScore := 0
    entropyMeans := [], entropyVariances := []
    scoreDerivativeIds := [], scoreDerivativeScoreDiffs := [] }

/-- A sample diff observing slot 0 (a boolean) and omitting slot 1. -/
def omitDiff : Diff :=
  { neg := ProductValue.cleared
    pos := { observed := { sparsity := Sparsity.DENSE, dense := [true, false], sparse := [] }
             booleans := [true]
             counts := []
             reals := [] } }

/-- A response whose single sample observes the sampled slot 0 and omits the
conditioned slot 1. -/
def c3okResp : Response :=
  { id := "resp-2", error := [], sampleSamples := [omitDiff], scoreScore := 0
    entropyMeans := [], entropyVariances := []
    scoreDerivativeIds := [], scoreDerivativeScoreDiffs := [] }

/-- An error-free response carrying a correlation id different from every
request id used alongside it. -/
def mismatchResp : Response :=
  { id := "response-id-b", error := [], sampleSamples := [], scoreScore := 5
    entropyMeans := [], entropyVariances := []
    scoreDerivativeIds := [], scoreDerivativeScoreDiffs := [] }

/-- A response carrying two engine-reported error strings. -/
def errResp : Response :=
  { id := "resp-err", error := ["bad seed", "out of memory"], sampleSamples := []
    scoreScore := 0, entropyMeans := [], entropyVariances := []
    scoreDerivativeIds := [], scoreDerivativeScoreDiffs := [] }

/-- The `Estimate` namedtuple: a (mean, variance) pair. -/
structure Estimate where
  mean : Rat
  variance : Rat
deriving DecidableEq, Repr

/-- `QueryServer.mutual_information(feature_set1, feature_set2, entropys)`
with the `entropys` mapping supplied: mean
`H(A) + H(B) - H(A ∪ B)`, variance `Var(A) + Var(B) + Var(A ∪ B)`.  The
Python arguments are normalized to frozensets before lookup; here they are
`Finset`s already, and the mapping is a function on feature sets. -/
def mutual_information (feature_set1 feature_set2 : Finset Nat)
    (entropys : Finset Nat → Estimate) : Estimate :=
  let feature_union := feature_set1 ∪ feature_set2
  { mean := (entropys feature_set1).mean + (entropys feature_set2).mean
      - (entropys feature_union).mean
    variance := (entropys feature_set1).variance + (entropys feature_set2).variance
      + (entropys feature_union).variance }

/-- Fuel-indexed contiguous chunking; with fuel at least the list length and
a positive chunk size it computes the slices `l[i : i + t]` for
`i in range(0, len(l), t)` of the tiling loop in `QueryServer.entropy`. -/
def chunksOfAux {α : Type} (t : Nat) : Nat → List α → List (List α)
  | 0, _ => []
  | _ + 1, [] => []
  | fuel + 1, x :: xs => (x :: xs).take t :: chunksOfAux t fuel ((x :: xs).drop t)

/-- The contiguous chunks `l[i : i + t]`, `i in range(0, len(l), t)`, of the
tiling loop (well-defined for the positive tile sizes the code asserts). -/
def chunksOf {α : Type} (t : Nat) (l : List α) : List (List α) :=
  chunksOfAux t l.length l

/-- The effective tile edge computed by `QueryServer.entropy`:
`tile_size * tile_size // max(1, min(tile_size, len(row_sets), len(col_sets)))`. -/
def effectiveTile (tile_size nRows nCols : Nat) : Nat :=
  tile_size * tile_size / max 1 (min tile_size (min nRows nCols))

/-- The deduplication at the head of `QueryServer._entropy`: both input
lists become `set(map(frozenset, .)) | set([frozenset()])` — duplicates
removed and the empty feature set adjoined.  Python set iteration order is
unspecified; it is modelled as first-occurrence order, which no claim
depends on.  `_entropy` then sends one request, and on the received
response: engine errors raise; the parallel mean/variance arrays must each
have length `len(row_sets) * len(col_sets)` (`assert` otherwise); the result
maps the row-major pairwise unions to estimates (modelled as an association
list, later entries overriding earlier ones on duplicate keys, as for a dict
comprehension). -/
def dedupSets (sets : List (Finset Nat)) : List (Finset Nat) :=
  (∅ :: sets).dedup

/-- The response-side body of `QueryServer._entropy` described above, for one
row-tile and col-tile pair and its received response. -/
def entropyReceive (row_sets col_sets : List (Finset Nat)) (resp : Response) :
    Except String (List (Finset Nat × Estimate)) :=
  if resp.error = [] then
    if resp.entropyMeans.length = (dedupSets row_sets).length * (dedupSets col_sets).length then
      if resp.entropyVariances.length = (dedupSets row_sets).length * (dedupSets col_sets).length then
        Except.ok (List.zip
          ((dedupSets row_sets).flatMap fun r => (dedupSets col_sets).map fun c => r ∪ c)
          ((resp.entropyMeans.zip resp.entropyVariances).map
            fun p => { mean := p.1, variance := p.2 }))
      else Except.error "AssertionError"
    else Except.error "AssertionError"
  else Except.error (String.intercalate "\n" resp.error)

/-- The nested tiling loops of `QueryServer.entropy`: one `_entropy` request
per (row-tile, col-tile) pair in row-major order, each consuming the next
FIFO response; `result.update(...)` is modelled by appending the tile's
association list (later entries override on duplicate keys). -/
def entropyGo : List (List (Finset Nat) × List (Finset Nat)) → List Response →
    List (Finset Nat × Estimate) → Except String (List (Finset Nat × Estimate))
  | [], _, acc => Except.ok acc
  | _ :: _, [], _ => Except.error "TransportClosed"
  | (rt, ct) :: ps, resp :: rest, acc =>
    match entropyReceive rt ct resp with
    | Except.error e => Except.error e
    | Except.ok tile => entropyGo ps rest (acc ++ tile)

/-- `QueryServer.entropy(row_sets, col_sets, tile_size)`: compute the
effective tile edge, `assert tile_size > 0`, slice both lists into contiguous
tiles, and merge the per-tile `_entropy` results. -/
def entropy (row_sets col_sets : List (Finset Nat)) (tile_size : Nat)
    (resps : List Response) : Except String (List (Finset Nat × Estimate)) :=
  if effectiveTile tile_size row_sets.length col_sets.length = 0 then
    Except.error "AssertionError"
  else
    entropyGo
      ((chunksOf (effectiveTile tile_size row_sets.length col_sets.length) row_sets).flatMap
        fun rt =>
          (chunksOf (effectiveTile tile_size row_sets.length col_sets.length) col_sets).map
            fun ct => (rt, ct))
      resps []

/-- The key set of a returned entropy mapping. -/
def resultKeys (l : List (Finset Nat × Estimate)) : Finset (Finset Nat) :=
  (l.map Prod.fst).toFinset

/-- The key set a single `_entropy` call produces for given row and col
feature-set lists. -/
def pairKeys (row_sets col_sets : List (Finset Nat)) : Finset (Finset Nat) :=
  ((dedupSets row_sets).flatMap fun r => (dedupSets col_sets).map fun c => r ∪ c).toFinset

/-- The union of the key sets of a list of `_entropy` tile calls. -/
def pairsKeys : List (List (Finset Nat) × List (Finset Nat)) → Finset (Finset Nat)
  | [] => ∅
  | (rt, ct) :: ps => pairKeys rt ct ∪ pairsKeys ps

/-- Transport events of the pipelined batch scorer: a request frame written,
or a response frame read. -/
inductive Ev where
  | send (row : List (Option PyVal))
  | recv
deriving DecidableEq, Repr

/-- The drain loop `for _ in range(buffered): yield self._receive_score()`
of `QueryServer.batch_score`, popping the FIFO queue of outstanding score
requests; a receive with nothing outstanding blocks on a stream that will
never produce a frame (`TransportClosed`). -/
def drainN (scoreOf : List (Option PyVal) → Rat) :
    Nat → List (List (Option PyVal)) → Except String (List Rat)
  | 0, _ => Except.ok []
  | _ + 1, [] => Except.error "TransportClosed"
  | n + 1, p :: ps =>
    match drainN scoreOf n ps with
    | Except.ok tail => Except.ok (scoreOf p :: tail)
    | Except.error e => Except.error e

/-- The main loop of `QueryServer.batch_score`: for each row, `_send_score`
(pushing the row onto the FIFO queue of outstanding requests); while fewer
than `buffer_size` requests have been buffered, only increment the window,
otherwise `yield self._receive_score()` (popping the queue front, whose score
the engine computes as `scoreOf`); finally drain the window.  The second
component traces the send/receive interleaving on the transport.  The engine
is the FIFO oracle `scoreOf`; engine-reported errors are the concern of
`_receive_score` and are not raised by this error-free oracle. -/
def batchScoreGo (scoreOf : List (Option PyVal) → Rat) (buffer_size : Nat) :
    List (List (Option PyVal)) → List (List (Option PyVal)) → Nat →
    Except String (List Rat × List Ev)
  | [], pending, buffered =>
    match drainN scoreOf buffered pending with
    | Except.ok scores => Except.ok (scores, List.replicate buffered Ev.recv)
    | Except.error e => Except.error e
  | r :: rest, pending, buffered =>
    if buffered < buffer_size then
      match batchScoreGo scoreOf buffer_size rest (pending ++ [r]) (buffered + 1) with
      | Except.ok (scores, evs) => Except.ok (scores, Ev.send r :: evs)
      | Except.error e => Except.error e
    else
      match pending ++ [r] with
      | [] => Except.error "TransportClosed"
      | p :: ps =>
        match batchScoreGo scoreOf buffer_size rest ps buffered with
        | Except.ok (scores, evs) =>
          Except.ok (scoreOf p :: scores, Ev.send r :: Ev.recv :: evs)
        | Except.error e => Except.error e

/-- `QueryServer.batch_score(rows, buffer_size)`, run to exhaustion: the lazy
generator's yielded values in order, together with the transport trace. -/
def batch_score (scoreOf : List (Option PyVal) → Rat)
    (rows : List (List (Option PyVal))) (buffer_size : Nat) :
    Except String (List Rat × List Ev) :=
  batchScoreGo scoreOf buffer_size rows [] 0

/-- An error-free response carrying four entropy means and variances, enough
for one `_entropy` call on one deduplicated row set and col set pair plus the
adjoined empty set. -/
def entResp4 : Response :=
  { id := "resp-ent", error := [], sampleSamples := [], scoreScore := 0
    entropyMeans := [0, 0, 0, 0], entropyVariances := [0, 0, 0, 0]
    scoreDerivativeIds := [], scoreDerivativeScoreDiffs := [] }

/-- The mapping returned by one entropy call over row sets `[{0}]` and col
sets `[{0}]` answered by `entResp4`. -/
def c6m : List (Finset Nat × Estimate) :=
  [(∅ ∪ ∅, { mean := 0, variance := 0 }),
   (∅ ∪ {0}, { mean := 0, variance := 0 }),
   ({0} ∪ ∅, { mean := 0, variance := 0 }),
   ({0} ∪ {0}, { mean := 0, variance := 0 })]

/-- A concrete entropys mapping holding estimates for the feature sets
`{0}`, `{1}` and their union. -/
def c7entropys : Finset Nat → Estimate := fun s =>
  if s = {0} then { mean := 1, variance := 2 }
  else if s = {1} then { mean := 3, variance := 4 }
  else if s = ({0, 1} : Finset Nat) then { mean := 5, variance := 6 }
  else { mean := 0, variance := 0 }

/-- The encoding loop on a row free of unsupported types appends the dense
mask and the three type-segregated value lists to whatever the `pos` message
already holds. -/
theorem encodeFold_ok (r : List (Option PyVal)) :
    rowHasStr r = false → ∀ pos : ProductValue,
    encodeFold r pos = Except.ok
      { observed := { sparsity := pos.observed.sparsity
                      dense := pos.observed.dense ++ r.map Option.isSome
                      sparse := pos.observed.sparse }
        booleans := pos.booleans ++ rowBools r
        counts := pos.counts ++ rowCounts r
        reals := pos.reals ++ rowReals r } := by
  induction r with
  | nil =>
    intro _ pos
    simp [encodeFold, rowBools, rowCounts, rowReals]
  | cons v rest ih =>
    intro h pos
    rw [rowHasStr, List.any_cons, Bool.or_eq_false_iff] at h
    have hrest : rowHasStr rest = false := h.2
    cases v with
    | none =>
      rw [encodeFold, encodeStep]
      simp only []
      rw [ih hrest]
      simp [rowBools, rowCounts, rowReals, List.filterMap_cons]
    | some w =>
      cases w with
      | pyBool b =>
        rw [encodeFold, encodeStep]
        simp only []
        rw [ih hrest]
        simp [rowBools, rowCounts, rowReals, List.filterMap_cons]
      | pyInt n =>
        rw [encodeFold, encodeStep]
        simp only []
        rw [ih hrest]
        simp [rowBools, rowCounts, rowReals, List.filterMap_cons]
      | pyFloat q =>
        rw [encodeFold, encodeStep]
        simp only []
        rw [ih hrest]
        simp [rowBools, rowCounts, rowReals, List.filterMap_cons]
      | pyStr s =>
        simp at h

/-- The encoding loop raises `KeyError` whenever some observed slot holds a
value of an unsupported exact type. -/
theorem encodeFold_err (r : List (Option PyVal)) :
    rowHasStr r = true → ∀ pos : ProductValue,
    encodeFold r pos = Except.error "KeyError" := by
  induction r with
  | nil => intro h; simp [rowHasStr] at h
  | cons v rest ih =>
    intro h pos
    rw [rowHasStr, List.any_cons, Bool.or_eq_true] at h
    cases v with
    | none =>
      rw [encodeFold, encodeStep]
      simp only []
      apply ih
      rcases h with h | h
      · simp at h
      · exact h
    | some w =>
      cases w with
      | pyBool b =>
        rw [encodeFold, encodeStep]
        simp only []
        apply ih
        rcases h with h | h
        · simp at h
        · exact h
      | pyInt n =>
        rw [encodeFold, encodeStep]
        simp only []
        apply ih
        rcases h with h | h
        · simp at h
        · exact h
      | pyFloat q =>
        rw [encodeFold, encodeStep]
        simp only []
        apply ih
        rcases h with h | h
        · simp at h
        · exact h
      | pyStr s =>
        rw [encodeFold, encodeStep]

/-- Decoding a mask against exactly the row's observed values (with any
surplus values appended) reconstructs the row; surplus values are ignored. -/
theorem decodeFold_exact (r : List (Option PyVal)) (extra : List PyVal) :
    decodeFold (r.map Option.isSome) (r.filterMap id ++ extra) = Except.ok r := by
  induction r with
  | nil => simp [decodeFold]
  | cons v rest ih =>
    cases v with
    | none =>
      rw [List.map_cons, List.filterMap_cons_none]
      · simp only [Option.isSome_none]
        rw [decodeFold, ih]
      · rfl
    | some w =>
      rw [List.map_cons, List.filterMap_cons_some]
      · simp only [Option.isSome_some, List.cons_append]
        rw [decodeFold, ih]
      · rfl

/-- The decoding comprehension raises exactly when the mask marks more slots
observed than the packed iterator has values. -/
theorem decodeFold_error_iff (mask : List Bool) (vals : List PyVal) :
    exceptIsError (decodeFold mask vals) = true ↔ vals.length < mask.count true := by
  induction mask generalizing vals with
  | nil => simp [decodeFold, exceptIsError]
  | cons b rest ih =>
    cases b with
    | false =>
      have heq : exceptIsError (decodeFold (false :: rest) vals) =
          exceptIsError (decodeFold rest vals) := by
        cases hrec : decodeFold rest vals with
        | ok tail => simp [decodeFold, hrec, exceptIsError]
        | error e => simp [decodeFold, hrec, exceptIsError]
      have hcount : (false :: rest).count true = rest.count true := by
        simp [List.count_cons]
      rw [heq, ih, hcount]
    | true =>
      cases vals with
      | nil =>
        have hdec : decodeFold (true :: rest) [] = Except.error "StopIteration" := by
          simp [decodeFold]
        have hcount : (true :: rest).count true = rest.count true + 1 := by
          simp [List.count_cons]
        rw [hdec, hcount]
        simp [exceptIsError]
      | cons v vs =>
        have heq : exceptIsError (decodeFold (true :: rest) (v :: vs)) =
            exceptIsError (decodeFold rest vs) := by
          cases hrec : decodeFold rest vs with
          | ok tail => simp [decodeFold, hrec, exceptIsError]
          | error e => simp [decodeFold, hrec, exceptIsError]
        have hcount : (true :: rest).count true = rest.count true + 1 := by
          simp [List.count_cons]
        rw [heq, ih, hcount]
        simp [Nat.succ_lt_succ_iff]

/-- A type-segregated row holds no value of an unsupported type: such a value
would appear among the observed values but not in any of the three typed
lists. -/
theorem typeSegregated_no_str (r : List (Option PyVal)) (h : typeSegregated r) :
    rowHasStr r = false := by
  by_contra hc
  rw [Bool.not_eq_false, rowHasStr, List.any_eq_true] at hc
  obtain ⟨v, hv, hmatch⟩ := hc
  cases v with
  | none => simp at hmatch
  | some w =>
    cases w with
    | pyBool b => simp at hmatch
    | pyInt n => simp at hmatch
    | pyFloat q => simp at hmatch
    | pyStr s =>
      have hmem : PyVal.pyStr s ∈ r.filterMap id := by
        rw [List.mem_filterMap]
        exact ⟨some (PyVal.pyStr s), hv, rfl⟩
      rw [h] at hmem
      simp [List.mem_append, List.mem_map] at hmem

/-- Encoding succeeds on every row free of unsupported-typed values. -/
theorem data_row_to_protobuf_ok (r : List (Option PyVal)) (h : rowHasStr r = false) :
    ∃ d, data_row_to_protobuf r = Except.ok d := by
  rw [data_row_to_protobuf]
  by_cases hall : r.all Option.isNone
  · rw [if_pos hall]
    exact ⟨_, rfl⟩
  · rw [if_neg hall, encodeFold_ok r h densePos0]
    exact ⟨_, rfl⟩

/-- A row holding an unsupported-typed value is not all-unobserved. -/
theorem rowHasStr_not_all_none (r : List (Option PyVal)) (h : rowHasStr r = true) :
    r.all Option.isNone = false := by
  rw [rowHasStr, List.any_eq_true] at h
  obtain ⟨v, hv, hmatch⟩ := h
  cases v with
  | none => simp at hmatch
  | some w =>
    rw [Bool.eq_false_iff]
    intro hall
    rw [List.all_eq_true] at hall
    have := hall _ hv
    simp at this

/-- What the per-sample reconciliation loop guarantees about its output row:
the row has the same length as the decoded engine sample, every slot the
engine left unobserved carries the conditioning value at that index, and
every slot the engine echoed carries the echoed value. -/
theorem reconcileFold_spec (ts : List Bool) (cond : List (Option PyVal)) :
    ∀ (out : List (Option PyVal)) (i0 : Nat) (row : List (Option PyVal)),
    reconcileFold ts cond out i0 = Except.ok row →
    row.length = out.length ∧
    ∀ j, j < out.length →
      (out[j]? = some Option.none → row[j]? = cond[i0 + j]?) ∧
      (∀ v : PyVal, out[j]? = some (some v) → row[j]? = some (some v)) := by
  intro out
  induction out with
  | nil =>
    intro i0 row h
    rw [reconcileFold] at h
    cases h
    exact ⟨rfl, fun j hj => absurd hj (by simp)⟩
  | cons a rest ih =>
    intro i0 row h
    cases a with
    | some v =>
      rw [reconcileFold] at h
      cases hrec : reconcileFold ts cond rest (i0 + 1) with
      | ok tail =>
        rw [hrec] at h
        cases h
        obtain ⟨hlen, hspec⟩ := ih (i0 + 1) tail hrec
        refine ⟨by simp [hlen], ?_⟩
        intro j hj
        cases j with
        | zero =>
          constructor
          · intro hc; simp at hc
          · intro w hw
            simp at hw
            simp [hw]
        | succ k =>
          have hk : k < rest.length := by simpa using hj
          have hik : i0 + (k + 1) = (i0 + 1) + k := by omega
          constructor
          · intro hc
            rw [List.getElem?_cons_succ] at hc
            have := (hspec k hk).1 hc
            rw [List.getElem?_cons_succ, this, hik]
          · intro w hw
            rw [List.getElem?_cons_succ] at hw
            have := (hspec k hk).2 w hw
            rw [List.getElem?_cons_succ, this]
      | error e =>
        rw [hrec] at h
        cases h
    | none =>
      rw [reconcileFold] at h
      cases hts : ts[i0]? with
      | none => rw [hts] at h; cases h
      | some b =>
        rw [hts] at h
        cases b with
        | true => cases h
        | false =>
          cases hcond : cond[i0]? with
          | none => rw [hcond] at h; cases h
          | some c =>
            rw [hcond] at h
            cases hrec : reconcileFold ts cond rest (i0 + 1) with
            | ok tail =>
              rw [hrec] at h
              cases h
              obtain ⟨hlen, hspec⟩ := ih (i0 + 1) tail hrec
              refine ⟨by simp [hlen], ?_⟩
              intro j hj
              cases j with
              | zero =>
                constructor
                · intro _
                  simpa using hcond.symm
                · intro w hw
                  simp at hw
              | succ k =>
                have hk : k < rest.length := by simpa using hj
                have hik : i0 + (k + 1) = (i0 + 1) + k := by omega
                constructor
                · intro hc
                  rw [List.getElem?_cons_succ] at hc
                  have := (hspec k hk).1 hc
                  rw [List.getElem?_cons_succ, this, hik]
                · intro w hw
                  rw [List.getElem?_cons_succ] at hw
                  have := (hspec k hk).2 w hw
                  rw [List.getElem?_cons_succ, this]
            | error e =>
              rw [hrec] at h
              cases h

/-- Every row returned by the sample-decoding loop arises from decoding one
of the response's sample diffs and reconciling it. -/
theorem sampleFold_spec (ts : List Bool) (cond : List (Option PyVal)) :
    ∀ (ds : List Diff) (rows : List (List (Option PyVal))),
    sampleFold ts cond ds = Except.ok rows →
    ∀ row ∈ rows, ∃ d ∈ ds, ∃ out, protobuf_to_data_row d = Except.ok out ∧
      reconcileFold ts cond out 0 = Except.ok row := by
  intro ds
  induction ds with
  | nil =>
    intro rows h
    rw [sampleFold] at h
    cases h
    intro row hrow
    simp at hrow
  | cons d ds2 ih =>
    intro rows h
    rw [sampleFold] at h
    cases hdec : protobuf_to_data_row d with
    | error e => rw [hdec] at h; cases h
    | ok data_out =>
      rw [hdec] at h
      dsimp only at h
      cases hrec : reconcileFold ts cond data_out 0 with
      | error e => rw [hrec] at h; cases h
      | ok row0 =>
        rw [hrec] at h
        dsimp only at h
        cases hrest : sampleFold ts cond ds2 with
        | error e => rw [hrest] at h; cases h
        | ok rows2 =>
          rw [hrest] at h
          dsimp only at h
          cases h
          intro row hrow
          rw [List.mem_cons] at hrow
          cases hrow with
          | inl heq =>
            subst heq
            exact ⟨d, List.mem_cons_self d ds2, data_out, hdec, hrec⟩
          | inr hmem =>
            obtain ⟨d2, hd2, out2, hout2, hrec2⟩ := ih rows2 hrest row hmem
            exact ⟨d2, List.mem_cons_of_mem d hd2, out2, hout2, hrec2⟩

/-- Every slot of an all-`None` row satisfies the `all`-`isNone` test of
`data_row_to_protobuf`. -/
theorem replicate_none_all (n : Nat) :
    (List.replicate n (Option.none : Option PyVal)).all Option.isNone = true := by
  simp [List.all_eq_true, List.mem_replicate]

/-- Claim C1 (counterexample): the round trip
`protobuf_to_data_row(data_row_to_protobuf(r))` does not return `r` for every
row mixing value types across slots: the row `[1.0, True]` (a real slot
followed by a boolean slot) decodes to `[True, 1.0]`, because the decoder
consumes the typed lists in the fixed order booleans, counts, reals rather
than in slot order. -/
theorem c1_mixed_row_counterexample :
    (data_row_to_protobuf [some (PyVal.pyFloat 1), some (PyVal.pyBool true)]).bind protobuf_to_data_row
      = Except.ok [some (PyVal.pyBool true), some (PyVal.pyFloat 1)] ∧
    ([some (PyVal.pyBool true), some (PyVal.pyFloat 1)] : List (Option PyVal))
      ≠ [some (PyVal.pyFloat 1), some (PyVal.pyBool true)] := by
  constructor
  · rfl
  · decide

/-- Claim C1 (amended): for every logical row with at least one observed slot
whose observed values already appear in the wire's type-priority order
(booleans, then integer counts, then reals — in particular every homogeneous
row), decoding the diff produced by encoding the row returns exactly the row.
Rows mixing types out of that order decode to a type-permuted row, and the
all-unobserved row decodes to the empty row. -/
theorem c1_roundtrip_typeOrdered (r : List (Option PyVal))
    (hobs : r.all Option.isNone = false)
    (hseg : typeSegregated r) :
    (data_row_to_protobuf r).bind protobuf_to_data_row = Except.ok r := by
  have hstr := typeSegregated_no_str r hseg
  have hseg2 : r.filterMap id =
      (rowBools r).map PyVal.pyBool ++ (rowCounts r).map PyVal.pyInt ++ (rowReals r).map PyVal.pyFloat := hseg
  have henc := encodeFold_ok r hstr densePos0
  rw [data_row_to_protobuf, if_neg (by simp [hobs]), henc]
  simp only [Except.bind]
  rw [protobuf_to_data_row]
  simp only [densePos0, ProductValue.cleared, ProductValue.packed, List.nil_append]
  rw [if_pos trivial]
  rw [← hseg2]
  have h2 := decodeFold_exact r []
  rwa [List.append_nil] at h2

/-- Claim C1 (witness): the amended round trip at the concrete type-ordered
mixed row `[True, 2, None, 1.0]`. -/
theorem c1_roundtrip_typeOrdered_witness :
    ([some (PyVal.pyBool true), some (PyVal.pyInt 2), Option.none, some (PyVal.pyFloat 1)]
        : List (Option PyVal)).all Option.isNone = false ∧
    typeSegregated [some (PyVal.pyBool true), some (PyVal.pyInt 2), Option.none, some (PyVal.pyFloat 1)] ∧
    (data_row_to_protobuf
        [some (PyVal.pyBool true), some (PyVal.pyInt 2), Option.none, some (PyVal.pyFloat 1)]).bind
      protobuf_to_data_row
      = Except.ok [some (PyVal.pyBool true), some (PyVal.pyInt 2), Option.none, some (PyVal.pyFloat 1)] :=
  ⟨by decide, by decide, c1_roundtrip_typeOrdered _ (by decide) (by decide)⟩

/-- Claim C2 (counterexample): encoding the all-unobserved row of length 1
and decoding the result returns the empty row, not the original length-1 row:
the `NONE` mask does not record the slot count, and the decoder walks the
empty dense mask. -/
theorem c2_counterexample :
    (data_row_to_protobuf [(Option.none : Option PyVal)]).bind protobuf_to_data_row
      = Except.ok ([] : List (Option PyVal)) ∧
    (Except.ok ([] : List (Option PyVal)) : Except String (List (Option PyVal)))
      ≠ Except.ok [(Option.none : Option PyVal)] := by
  constructor
  · rfl
  · simp

/-- Claim C2 (amended): for every row of length `n` in which every slot is
unobserved, encode produces the diff whose masks (`neg` and `pos`) both have
sparsity `NONE` and whose three typed value lists are all empty; decoding
that diff returns the empty all-unobserved row, which equals the original
row only when `n = 0` (the row length is not recoverable from a `NONE`-mask
diff). -/
theorem c2_all_unobserved (n : Nat) :
    data_row_to_protobuf (List.replicate n Option.none) = Except.ok none_to_protobuf ∧
    none_to_protobuf.pos.observed.sparsity = Sparsity.NONE ∧
    none_to_protobuf.neg.observed.sparsity = Sparsity.NONE ∧
    none_to_protobuf.pos.booleans = [] ∧
    none_to_protobuf.pos.counts = [] ∧
    none_to_protobuf.pos.reals = [] ∧
    protobuf_to_data_row none_to_protobuf = Except.ok [] := by
  refine ⟨?_, rfl, rfl, rfl, rfl, rfl, rfl⟩
  rw [data_row_to_protobuf, if_pos (by rw [replicate_none_all])]

/-- Claim C3 (counterexample): with target mask `[false]` and conditioning
row `[7]`, a response whose sample echoes the value `8` at the unsampled
slot 0 is returned with the engine's value `8`, not the caller-supplied
conditioning value `7`: the reconciliation loop overwrites only slots the
engine left unobserved (`if val is None`), not every not-to-sample slot. -/
theorem c3_echo_counterexample :
    sample [false] [some (PyVal.pyInt 7)] c3resp = Except.ok [[some (PyVal.pyInt 8)]] ∧
    ([[some (PyVal.pyInt 8)]] : List (List (Option PyVal))) ≠ [[some (PyVal.pyInt 7)]] := by
  constructor
  · rfl
  · decide

/-- Claim C3 (amended): whenever the engine omits echoing the conditioned
slots — every returned sample diff decodes to a row that is unobserved at
every slot marked not-to-sample — each returned row carries exactly the
caller-supplied conditioning value at every not-to-sample slot.  (When the
engine does echo a value at a not-to-sample slot, that echoed value is kept
instead.) -/
theorem c3_engine_omission (to_sample : List Bool) (cond : List (Option PyVal))
    (resp : Response) (rows : List (List (Option PyVal)))
    (hok : sample to_sample cond resp = Except.ok rows)
    (homit : ∀ d ∈ resp.sampleSamples, ∀ out, protobuf_to_data_row d = Except.ok out →
      ∀ i, i < out.length → to_sample[i]? = some false → out[i]? = some Option.none) :
    ∀ row ∈ rows, ∀ i, i < row.length → to_sample[i]? = some false →
      row[i]? = cond[i]? := by
  rw [sample] at hok
  by_cases hlen : to_sample.length = cond.length
  · rw [if_pos hlen] at hok
    cases henc : data_row_to_protobuf cond with
    | error e => rw [henc] at hok; cases hok
    | ok dc =>
      rw [henc] at hok
      dsimp only at hok
      by_cases herr : resp.error = []
      · rw [if_pos herr] at hok
        intro row hrow i hi hts
        obtain ⟨d, hd, out, hout, hrec⟩ :=
          sampleFold_spec to_sample cond resp.sampleSamples rows hok row hrow
        obtain ⟨hlen2, hspec⟩ := reconcileFold_spec to_sample cond out 0 row hrec
        have hiout : i < out.length := by rw [← hlen2]; exact hi
        have hnone := homit d hd out hout i hiout hts
        have := (hspec i hiout).1 hnone
        rwa [Nat.zero_add] at this
      · rw [if_neg herr] at hok
        cases hok
  · rw [if_neg hlen] at hok
    cases hok

/-- Claim C3 (witness): the amended statement at target mask `[true, false]`,
conditioning row `[None, 7]`, and a response whose sample observes only the
sampled slot 0; the returned row carries `7` at the conditioned slot 1. -/
theorem c3_engine_omission_witness :
    sample [true, false] [Option.none, some (PyVal.pyInt 7)] c3okResp
      = Except.ok [[some (PyVal.pyBool true), some (PyVal.pyInt 7)]] ∧
    ([some (PyVal.pyBool true), some (PyVal.pyInt 7)] : List (Option PyVal))[1]?
      = [Option.none, some (PyVal.pyInt 7)][1]? := by
  refine ⟨rfl, ?_⟩
  refine c3_engine_omission [true, false] [Option.none, some (PyVal.pyInt 7)] c3okResp
    [[some (PyVal.pyBool true), some (PyVal.pyInt 7)]] rfl ?_
    [some (PyVal.pyBool true), some (PyVal.pyInt 7)] (by simp) 1 (by decide) (by decide)
  intro d hd out hout i hi hts
  rw [show c3okResp.sampleSamples = [omitDiff] from rfl, List.mem_singleton] at hd
  subst hd
  have hdec : protobuf_to_data_row omitDiff
      = Except.ok [some (PyVal.pyBool true), Option.none] := rfl
  rw [hdec] at hout
  cases hout
  rcases i with _ | _ | i
  · exact absurd hts (by decide)
  · decide
  · simp at hi
    omega

/-- Claim C4 (counterexample): `score` on an error-free response whose
correlation id differs from the request's id returns the score normally; no
protocol-integrity error is raised and the mismatch is silently accepted. -/
theorem c4_id_mismatch_counterexample :
    score "request-id-a" [some (PyVal.pyBool true)] mismatchResp = Except.ok 5 ∧
    mismatchResp.id ≠ "request-id-a" := by
  constructor
  · rfl
  · decide

/-- Claim C4 (amended): no session operation ever compares the response's
correlation id with the request's id — the result of `score`, `sample`,
`_receive_score`, `entropyReceive` and `_score_derivative_receive` is
invariant under replacing the response id by anything, so a mismatched
response is processed exactly like a matching one; request/response
correlation relies solely on the transport's FIFO ordering (the id
conformance check appears only in external test code). -/
theorem c4_no_id_check (reqId idNew : String) (row : List (Option PyVal))
    (to_sample : List Bool) (cond : List (Option PyVal))
    (row_sets col_sets : List (Finset Nat)) (resp : Response) :
    score reqId row resp = score reqId row { resp with id := idNew } ∧
    sample to_sample cond resp = sample to_sample cond { resp with id := idNew } ∧
    _receive_score resp = _receive_score { resp with id := idNew } ∧
    entropyReceive row_sets col_sets resp
      = entropyReceive row_sets col_sets { resp with id := idNew } ∧
    _score_derivative_receive resp = _score_derivative_receive { resp with id := idNew } :=
  ⟨rfl, rfl, rfl, rfl, rfl⟩

/-- Claim C5 (counterexample): a diff whose mask observes one slot while the
typed lists hold two values decodes without error — the surplus value is
silently ignored, where the claim demands a `MalformedDiff` failure. -/
theorem c5_surplus_counterexample :
    protobuf_to_data_row surplusDiff = Except.ok [some (PyVal.pyBool true)] ∧
    surplusDiff.pos.observed.dense.count true ≠ surplusDiff.pos.packed.length := by
  constructor
  · rfl
  · decide

/-- Claim C5 (amended): decoding fails exactly when the mask marks more slots
observed than the three typed lists hold values combined (the packed iterator
runs out early, raising `StopIteration`); surplus values beyond the observed
slot count are silently ignored and never an error. -/
theorem c5_malformed_iff_shortfall (diff : Diff)
    (h : diff.neg.observed.sparsity = Sparsity.NONE) :
    exceptIsError (protobuf_to_data_row diff) = true ↔
      diff.pos.packed.length < diff.pos.observed.dense.count true := by
  rw [protobuf_to_data_row, if_pos h]
  exact decodeFold_error_iff _ _

/-- Claim C5 (witness): the amended statement at a concrete diff whose mask
observes two slots but whose lists hold a single value. -/
theorem c5_malformed_iff_shortfall_witness :
    exceptIsError (protobuf_to_data_row shortDiff) = true ↔
      shortDiff.pos.packed.length < shortDiff.pos.observed.dense.count true :=
  c5_malformed_iff_shortfall shortDiff rfl

/-- Claim C9: every session operation that received a response with a
non-empty error list fails with the single newline-joined error message and
returns no result (`_receive_score` covering each `batch_score` element,
`score`, `sample`, the `_entropy` response processing, and
`score_derivative`); with an empty error list no such failure occurs. -/
theorem c9_engine_error_surfacing (reqId : String) (row : List (Option PyVal))
    (to_sample : List Bool) (cond : List (Option PyVal))
    (row_sets col_sets : List (Finset Nat)) (lim : Nat) (resp : Response)
    (hrow : rowHasStr row = false) (hcond : rowHasStr cond = false)
    (hlen : to_sample.length = cond.length) :
    (resp.error ≠ [] →
      _receive_score resp = Except.error (String.intercalate "\n" resp.error) ∧
      score reqId row resp = Except.error (String.intercalate "\n" resp.error) ∧
      sample to_sample cond resp = Except.error (String.intercalate "\n" resp.error) ∧
      entropyReceive row_sets col_sets resp
        = Except.error (String.intercalate "\n" resp.error) ∧
      score_derivative row (some [cond]) lim resp
        = Except.error (String.intercalate "\n" resp.error)) ∧
    (resp.error = [] →
      _receive_score resp = Except.ok resp.scoreScore ∧
      score reqId row resp = Except.ok resp.scoreScore ∧
      score_derivative row (some [cond]) lim resp
        = Except.ok (resp.scoreDerivativeIds.zip resp.scoreDerivativeScoreDiffs)) := by
  obtain ⟨dr, hdr⟩ := data_row_to_protobuf_ok row hrow
  obtain ⟨dc, hdc⟩ := data_row_to_protobuf_ok cond hcond
  have hmap : List.mapM data_row_to_protobuf [cond] = Except.ok [dc] := by
    rw [List.mapM_cons, List.mapM_nil, hdc]
    rfl
  constructor
  · intro herr
    refine ⟨?_, ?_, ?_, ?_, ?_⟩
    · rw [_receive_score, if_neg herr]
    · rw [score, hdr]
      dsimp only
      rw [_receive_score, if_neg herr]
    · rw [sample, if_pos hlen, hdc]
      dsimp only
      rw [if_neg herr]
    · simp only [entropyReceive]
      rw [if_neg herr]
    · rw [score_derivative, hmap]
      dsimp only
      rw [hdr]
      dsimp only
      rw [_score_derivative_receive, if_neg herr]
  · intro herr
    refine ⟨?_, ?_, ?_⟩
    · rw [_receive_score, if_pos herr]
    · rw [score, hdr]
      dsimp only
      rw [_receive_score, if_pos herr]
    · rw [score_derivative, hmap]
      dsimp only
      rw [hdr]
      dsimp only
      rw [_score_derivative_receive, if_pos herr]

/-- Claim C9 (witness): a response carrying two engine error strings makes
`score` fail with the newline-joined message. -/
theorem c9_engine_error_surfacing_witness :
    errResp.error ≠ [] ∧
    score "req-1" [some (PyVal.pyBool true)] errResp
      = Except.error (String.intercalate "\n" errResp.error) := by
  constructor
  · decide
  · exact ((c9_engine_error_surfacing "req-1" [some (PyVal.pyBool true)] [true]
      [some (PyVal.pyInt 1)] [] [] 0 errResp (by decide) (by decide) (by decide)).1
      (by decide)).2.1

/-- Claim C10: the encoder dispatches on the exact runtime type of each
observed value (`fields[type(val)]`): booleans (a subclass of `int` in
Python, yet selected by exact class) land in `booleans` and never in
`counts`, plain ints in `counts`, floats in `reals` — the encoded diff's
lists are precisely the type-filtered observed values in slot order — and a
row holding a value of any other exact type makes encoding raise `KeyError`,
so `sample` fails before any frame is sent, whatever response the engine
would give. -/
theorem c10_exact_type_dispatch (r : List (Option PyVal)) (to_sample : List Bool)
    (hlen : to_sample.length = r.length) :
    (rowHasStr r = false → r.all Option.isNone = false →
      data_row_to_protobuf r = Except.ok
        { neg := ProductValue.cleared
          pos := { observed := { sparsity := Sparsity.DENSE
                                 dense := r.map Option.isSome
                                 sparse := [] }
                   booleans := rowBools r
                   counts := rowCounts r
                   reals := rowReals r } }) ∧
    (rowHasStr r = true →
      data_row_to_protobuf r = Except.error "KeyError" ∧
      ∀ resp : Response, sample to_sample r resp = Except.error "KeyError") := by
  constructor
  · intro hstr hobs
    rw [data_row_to_protobuf, if_neg (by simp [hobs]), encodeFold_ok r hstr densePos0]
    rfl
  · intro hstr
    have hobs := rowHasStr_not_all_none r hstr
    have henc : data_row_to_protobuf r = Except.error "KeyError" := by
      rw [data_row_to_protobuf, if_neg (by simp [hobs]), encodeFold_err r hstr densePos0]
    refine ⟨henc, ?_⟩
    intro resp
    rw [sample, if_pos hlen, henc]

/-- Claim C10 (witness): the dispatch at a concrete mixed row, and the
pre-send failure at a concrete row holding a string (even with a response
carrying engine errors, the `KeyError` from encoding wins: no frame was
sent). -/
theorem c10_exact_type_dispatch_witness :
    data_row_to_protobuf
        [some (PyVal.pyBool true), some (PyVal.pyInt 3), some (PyVal.pyFloat 1)]
      = Except.ok
        { neg := ProductValue.cleared
          pos := { observed := { sparsity := Sparsity.DENSE
                                 dense := [true, true, true]
                                 sparse := [] }
                   booleans := [true]
                   counts := [3]
                   reals := [1] } } ∧
    data_row_to_protobuf [some (PyVal.pyStr "x")] = Except.error "KeyError" ∧
    sample [false] [some (PyVal.pyStr "x")] errResp = Except.error "KeyError" := by
  refine ⟨?_, ?_, ?_⟩
  · exact (c10_exact_type_dispatch
      [some (PyVal.pyBool true), some (PyVal.pyInt 3), some (PyVal.pyFloat 1)]
      [false, false, false] (by decide)).1 (by decide) (by decide)
  · exact ((c10_exact_type_dispatch [some (PyVal.pyStr "x")] [false] (by decide)).2
      (by decide)).1
  · exact ((c10_exact_type_dispatch [some (PyVal.pyStr "x")] [false] (by decide)).2
      (by decide)).2 errResp

/-- Claim C7: `mutual_information` on an entropys mapping holding
`H(A) = (ma, va)`, `H(B) = (mb, vb)`, `H(A ∪ B) = (mab, vab)` returns mean
exactly `ma + mb - mab` and variance exactly `va + vb + vab`. -/
theorem c7_mutual_information_composition (A B : Finset Nat)
    (entropys : Finset Nat → Estimate) (ma va mb vb mab vab : Rat)
    (hA : entropys A = { mean := ma, variance := va })
    (hB : entropys B = { mean := mb, variance := vb })
    (hAB : entropys (A ∪ B) = { mean := mab, variance := vab }) :
    mutual_information A B entropys
      = { mean := ma + mb - mab, variance := va + vb + vab } := by
  simp only [mutual_information, hA, hB, hAB]

/-- Claim C7 (witness): the composition at `A = {0}`, `B = {1}` with
`H({0}) = (1, 2)`, `H({1}) = (3, 4)`, `H({0, 1}) = (5, 6)`. -/
theorem c7_mutual_information_composition_witness :
    c7entropys {0} = { mean := 1, variance := 2 } ∧
    c7entropys {1} = { mean := 3, variance := 4 } ∧
    c7entropys ({0} ∪ {1}) = { mean := 5, variance := 6 } ∧
    mutual_information {0} {1} c7entropys = { mean := -1, variance := 12 } := by
  refine ⟨by decide, by decide, by decide, ?_⟩
  rw [c7_mutual_information_composition {0} {1} c7entropys 1 2 3 4 5 6
    (by decide) (by decide) (by decide)]
  simp only [Estimate.mk.injEq]
  constructor <;> norm_num

/-- Draining a FIFO queue of outstanding requests whose depth equals the
buffered count yields exactly the queued rows' scores in order. -/
theorem drainN_exact (scoreOf : List (Option PyVal) → Rat) :
    ∀ ps : List (List (Option PyVal)),
    drainN scoreOf ps.length ps = Except.ok (ps.map scoreOf) := by
  intro ps
  induction ps with
  | nil => rfl
  | cons p ps2 ih =>
    show drainN scoreOf (ps2.length + 1) (p :: ps2) = _
    rw [drainN, ih]
    rfl

/-- The batch-score loop invariant: with a FIFO queue of `buffered` sent,
unanswered rows (and `buffered ≤ buffer_size`), the loop yields the pending
scores followed by the remaining rows' scores, in order, with a transport
trace that first buffers up to the window, then strictly alternates
send/receive, then drains. -/
theorem batchScoreGo_spec (scoreOf : List (Option PyVal) → Rat) (b : Nat) :
    ∀ (rest pending : List (List (Option PyVal))) (buffered : Nat),
    pending.length = buffered → buffered ≤ b →
    batchScoreGo scoreOf b rest pending buffered = Except.ok
      ((pending ++ rest).map scoreOf,
        (rest.take (b - buffered)).map Ev.send
          ++ (rest.drop (b - buffered)).flatMap (fun r => [Ev.send r, Ev.recv])
          ++ List.replicate (min b (buffered + rest.length)) Ev.recv) := by
  intro rest
  induction rest with
  | nil =>
    intro pending buffered hplen hble
    subst hplen
    rw [batchScoreGo, drainN_exact scoreOf pending]
    simp [Nat.min_eq_right hble]
  | cons r rest2 ih =>
    intro pending buffered hplen hble
    rw [batchScoreGo]
    by_cases hlt : buffered < b
    · rw [if_pos hlt]
      have h1 : (pending ++ [r]).length = buffered + 1 := by simp [hplen]
      rw [ih (pending ++ [r]) (buffered + 1) h1 (by omega)]
      dsimp only
      have htake : (r :: rest2).take (b - buffered) = r :: rest2.take (b - (buffered + 1)) := by
        have hb : b - buffered = (b - (buffered + 1)) + 1 := by omega
        rw [hb, List.take_succ_cons]
      have hdrop : (r :: rest2).drop (b - buffered) = rest2.drop (b - (buffered + 1)) := by
        have hb : b - buffered = (b - (buffered + 1)) + 1 := by omega
        rw [hb, List.drop_succ_cons]
      have hcnt : buffered + (r :: rest2).length = (buffered + 1) + rest2.length := by
        simp [List.length_cons]
        omega
      rw [htake, hdrop, hcnt]
      simp [List.append_assoc]
    · rw [if_neg hlt]
      have hbb : buffered = b := by omega
      have hz : b - buffered = 0 := by omega
      cases pending with
      | nil =>
        have hb0 : buffered = 0 := by simpa using hplen.symm
        have hb0b : b = 0 := by omega
        show (match [r] with
          | [] => Except.error "TransportClosed"
          | p :: ps =>
            match batchScoreGo scoreOf b rest2 ps buffered with
            | Except.ok (scores, evs) =>
              Except.ok (scoreOf p :: scores, Ev.send r :: Ev.recv :: evs)
            | Except.error e => Except.error e) = _
        dsimp only
        rw [ih [] buffered (by simp [hb0]) (by omega)]
        dsimp only
        rw [hz]
        simp [hb0b, hb0]
      | cons p ps2 =>
        show (match p :: (ps2 ++ [r]) with
          | [] => Except.error "TransportClosed"
          | q :: qs =>
            match batchScoreGo scoreOf b rest2 qs buffered with
            | Except.ok (scores, evs) =>
              Except.ok (scoreOf q :: scores, Ev.send r :: Ev.recv :: evs)
            | Except.error e => Except.error e) = _
        dsimp only
        have h1 : (ps2 ++ [r]).length = buffered := by
          simp at hplen
          simp
          omega
        rw [ih (ps2 ++ [r]) buffered h1 hble]
        dsimp only
        rw [hz]
        have hmin : min b (buffered + (r :: rest2).length)
            = min b (buffered + rest2.length) := by
          simp only [List.length_cons]
          omega
        rw [hmin]
        simp [List.append_assoc]

/-- Claim C8: for every row list and every buffer size, `batch_score` yields
exactly one score per row, in row order, under the FIFO transport, and never
receives a response for a request that was not sent (no deadlock, the run
completes); the transport trace first sends up to `buffer_size` requests,
then strictly alternates one send with one receive, then drains — with
`buffer_size = 0` the whole trace is the strict send/receive alternation. -/
theorem c8_batch_score_order (scoreOf : List (Option PyVal) → Rat)
    (rows : List (List (Option PyVal))) (buffer_size : Nat) :
    batch_score scoreOf rows buffer_size = Except.ok
      (rows.map scoreOf,
        (rows.take buffer_size).map Ev.send
          ++ (rows.drop buffer_size).flatMap (fun r => [Ev.send r, Ev.recv])
          ++ List.replicate (min buffer_size rows.length) Ev.recv) := by
  rw [batch_score, batchScoreGo_spec scoreOf buffer_size rows [] 0 rfl (Nat.zero_le _)]
  simp

/-- With a positive chunk size and enough fuel, flattening the chunks gives
back the original list. -/
theorem chunksOfAux_flatten {α : Type} (t : Nat) (ht : 1 ≤ t) :
    ∀ (fuel : Nat) (l : List α), l.length ≤ fuel →
    (chunksOfAux t fuel l).flatten = l := by
  intro fuel
  induction fuel with
  | zero =>
    intro l hl
    have hnil : l = [] := List.eq_nil_of_length_eq_zero (Nat.le_zero.mp hl)
    subst hnil
    rfl
  | succ f ih =>
    intro l hl
    cases l with
    | nil => rfl
    | cons x xs =>
      rw [chunksOfAux, List.flatten_cons, ih ((x :: xs).drop t) ?hlen,
        List.take_append_drop]
      case hlen =>
        rw [List.length_drop]
        simp only [List.length_cons] at hl ⊢
        omega

/-- Flattening the tiling chunks of a list gives back the list. -/
theorem chunksOf_flatten {α : Type} (t : Nat) (ht : 1 ≤ t) (l : List α) :
    (chunksOf t l).flatten = l :=
  chunksOfAux_flatten t ht l.length l (Nat.le_refl _)

/-- A nonempty list has at least one tiling chunk. -/
theorem chunksOf_ne_nil {α : Type} (t : Nat) (l : List α) (hl : l ≠ []) :
    chunksOf t l ≠ [] := by
  cases l with
  | nil => exact absurd rfl hl
  | cons x xs =>
    rw [chunksOf, List.length_cons, chunksOfAux]
    exact List.cons_ne_nil _ _

/-- Membership in a list is membership in one of its tiling chunks. -/
theorem mem_chunksOf {α : Type} (t : Nat) (ht : 1 ≤ t) (l : List α) (x : α) :
    x ∈ l ↔ ∃ c ∈ chunksOf t l, x ∈ c := by
  constructor
  · intro hx
    rw [← chunksOf_flatten t ht l] at hx
    exact List.mem_flatten.mp hx
  · intro hx
    rw [← chunksOf_flatten t ht l]
    exact List.mem_flatten.mpr hx

/-- The key set of a merged mapping is the union of the key sets. -/
theorem resultKeys_append (a b : List (Finset Nat × Estimate)) :
    resultKeys (a ++ b) = resultKeys a ∪ resultKeys b := by
  simp [resultKeys, List.map_append, List.toFinset_append]

/-- Membership in the key set of one `_entropy` call: the pairwise unions of
the row sets (with `∅` adjoined) and the col sets (with `∅` adjoined). -/
theorem mem_pairKeys (R C : List (Finset Nat)) (x : Finset Nat) :
    x ∈ pairKeys R C ↔
      ∃ r, (r = ∅ ∨ r ∈ R) ∧ ∃ c, (c = ∅ ∨ c ∈ C) ∧ r ∪ c = x := by
  simp [pairKeys, dedupSets, List.mem_flatMap, List.mem_map, List.mem_dedup,
    List.mem_cons]

/-- Membership in the union of the key sets of a list of tile calls. -/
theorem mem_pairsKeys (ps : List (List (Finset Nat) × List (Finset Nat)))
    (x : Finset Nat) :
    x ∈ pairsKeys ps ↔ ∃ p ∈ ps, x ∈ pairKeys p.1 p.2 := by
  induction ps with
  | nil => simp [pairsKeys]
  | cons pr tl ih =>
    cases pr with
    | mk rt ct =>
      rw [pairsKeys, Finset.mem_union, ih]
      constructor
      · rintro (h | ⟨p, hp, hx⟩)
        · exact ⟨(rt, ct), List.mem_cons_self _ _, h⟩
        · exact ⟨p, List.mem_cons_of_mem _ hp, hx⟩
      · rintro ⟨p, hp, hx⟩
        rw [List.mem_cons] at hp
        cases hp with
        | inl heq => subst heq; exact Or.inl hx
        | inr hmem => exact Or.inr ⟨p, hmem, hx⟩

/-- The length of the row-major union list built by `_entropy`. -/
theorem flatMap_union_length (rs cs : List (Finset Nat)) :
    (rs.flatMap fun r => cs.map fun c => r ∪ c).length = rs.length * cs.length := by
  induction rs with
  | nil => simp
  | cons r rs2 ih =>
    simp [List.flatMap_cons, ih, Nat.succ_mul]
    omega

/-- A successful `_entropy` call returns a mapping whose key set is exactly
`pairKeys` of its two feature-set lists. -/
theorem entropyReceive_keys (rt ct : List (Finset Nat)) (resp : Response)
    (l : List (Finset Nat × Estimate)) (h : entropyReceive rt ct resp = Except.ok l) :
    resultKeys l = pairKeys rt ct := by
  rw [entropyReceive] at h
  by_cases herr : resp.error = []
  · rw [if_pos herr] at h
    by_cases h1 : resp.entropyMeans.length = (dedupSets rt).length * (dedupSets ct).length
    · rw [if_pos h1] at h
      by_cases h2 : resp.entropyVariances.length
          = (dedupSets rt).length * (dedupSets ct).length
      · rw [if_pos h2] at h
        cases h
        have hklen := flatMap_union_length (dedupSets rt) (dedupSets ct)
        have helen : ((resp.entropyMeans.zip resp.entropyVariances).map
            (fun p => ({ mean := p.1, variance := p.2 } : Estimate))).length
            = (dedupSets rt).length * (dedupSets ct).length := by
          rw [List.length_map, List.length_zip, h1, h2, Nat.min_self]
        rw [resultKeys, List.map_fst_zip _ _ (by rw [hklen, helen])]
        rfl
      · rw [if_neg h2] at h; cases h
    · rw [if_neg h1] at h; cases h
  · rw [if_neg herr] at h; cases h

/-- A successful run of the tiling loop produces a mapping whose key set is
the accumulator's keys joined with the keys of every tile pair. -/
theorem entropyGo_keys : ∀ (pairs : List (List (Finset Nat) × List (Finset Nat)))
    (resps : List Response) (acc m : List (Finset Nat × Estimate)),
    entropyGo pairs resps acc = Except.ok m →
    resultKeys m = resultKeys acc ∪ pairsKeys pairs := by
  intro pairs
  induction pairs with
  | nil =>
    intro resps acc m h
    rw [entropyGo] at h
    cases h
    simp [pairsKeys]
  | cons pr ps ih =>
    intro resps acc m h
    cases pr with
    | mk rt ct =>
      cases resps with
      | nil => rw [entropyGo] at h; cases h
      | cons resp rest =>
        rw [entropyGo] at h
        cases hrec : entropyReceive rt ct resp with
        | error e => rw [hrec] at h; cases h
        | ok tile =>
          rw [hrec] at h
          dsimp only at h
          rw [ih rest (acc ++ tile) m h, resultKeys_append,
            entropyReceive_keys rt ct resp tile hrec, pairsKeys,
            Finset.union_assoc]

/-- The effective tile edge is positive whenever the requested tile size
is. -/
theorem effectiveTile_pos (t nR nC : Nat) (ht : 1 ≤ t) :
    1 ≤ effectiveTile t nR nC := by
  rw [effectiveTile]
  have hle : max 1 (min t (min nR nC)) ≤ t := by omega
  have hpos : 0 < max 1 (min t (min nR nC)) := by omega
  calc 1 ≤ t := ht
    _ = t * t / t := (Nat.mul_div_cancel t (by omega)).symm
    _ ≤ t * t / max 1 (min t (min nR nC)) := Nat.div_le_div_left hle hpos

/-- Tiling does not change the produced key set: the union of the key sets
of all (row-tile, col-tile) pairs equals the single-call key set, for
nonempty inputs. -/
theorem pairsKeys_product (t : Nat) (ht : 1 ≤ t) (R C : List (Finset Nat))
    (hR : R ≠ []) (hC : C ≠ []) :
    pairsKeys ((chunksOf t R).flatMap fun rt => (chunksOf t C).map fun ct => (rt, ct))
      = pairKeys R C := by
  ext x
  rw [mem_pairsKeys, mem_pairKeys]
  constructor
  · rintro ⟨p, hp, hx⟩
    rw [List.mem_flatMap] at hp
    obtain ⟨rt, hrt, hp2⟩ := hp
    rw [List.mem_map] at hp2
    obtain ⟨ct, hct, rfl⟩ := hp2
    rw [mem_pairKeys] at hx
    obtain ⟨r, hr, c, hc, rfl⟩ := hx
    refine ⟨r, ?_, c, ?_, rfl⟩
    · cases hr with
      | inl h0 => exact Or.inl h0
      | inr hmem => exact Or.inr ((mem_chunksOf t ht R r).mpr ⟨rt, hrt, hmem⟩)
    · cases hc with
      | inl h0 => exact Or.inl h0
      | inr hmem => exact Or.inr ((mem_chunksOf t ht C c).mpr ⟨ct, hct, hmem⟩)
  · rintro ⟨r, hr, c, hc, rfl⟩
    obtain ⟨rt0, hrt0⟩ := List.exists_mem_of_ne_nil _ (chunksOf_ne_nil t R hR)
    obtain ⟨ct0, hct0⟩ := List.exists_mem_of_ne_nil _ (chunksOf_ne_nil t C hC)
    have hrt : ∃ rt ∈ chunksOf t R, (r = ∅ ∨ r ∈ rt) := by
      cases hr with
      | inl h0 => exact ⟨rt0, hrt0, Or.inl h0⟩
      | inr hmem =>
        obtain ⟨rt, hrtm, hmem2⟩ := (mem_chunksOf t ht R r).mp hmem
        exact ⟨rt, hrtm, Or.inr hmem2⟩
    have hct : ∃ ct ∈ chunksOf t C, (c = ∅ ∨ c ∈ ct) := by
      cases hc with
      | inl h0 => exact ⟨ct0, hct0, Or.inl h0⟩
      | inr hmem =>
        obtain ⟨ct, hctm, hmem2⟩ := (mem_chunksOf t ht C c).mp hmem
        exact ⟨ct, hctm, Or.inr hmem2⟩
    obtain ⟨rt, hrtm, hrr⟩ := hrt
    obtain ⟨ct, hctm, hcc⟩ := hct
    refine ⟨(rt, ct), ?_, ?_⟩
    · rw [List.mem_flatMap]
      exact ⟨rt, hrtm, List.mem_map.mpr ⟨ct, hctm, rfl⟩⟩
    · rw [mem_pairKeys]
      exact ⟨r, hrr, c, hcc, rfl⟩

/-- The key set of any successful `entropy` call depends only on the two
feature-set lists, never on the tile size or the responses: it is empty when
either list is empty (no tile pair is ever requested) and otherwise equals
the single-call key set. -/
theorem entropy_keys (R C : List (Finset Nat)) (t : Nat) (ht : 1 ≤ t)
    (resps : List Response) (m : List (Finset Nat × Estimate))
    (hm : entropy R C t resps = Except.ok m) :
    resultKeys m = if R = [] ∨ C = [] then (∅ : Finset (Finset Nat)) else pairKeys R C := by
  rw [entropy] at hm
  have ht2 := effectiveTile_pos t R.length C.length ht
  rw [if_neg (by omega)] at hm
  rw [entropyGo_keys _ resps [] m hm]
  have hacc : resultKeys [] = (∅ : Finset (Finset Nat)) := rfl
  rw [hacc, Finset.empty_union]
  by_cases hR : R = []
  · subst hR
    rw [if_pos (Or.inl rfl)]
    rfl
  · by_cases hC : C = []
    · subst hC
      rw [if_pos (Or.inr rfl)]
      generalize effectiveTile t R.length ([] : List (Finset Nat)).length = te
      have hnil : ((chunksOf te R).flatMap
          fun rt => (chunksOf te ([] : List (Finset Nat))).map fun ct => (rt, ct)) = [] := by
        simp [chunksOf, chunksOfAux]
      rw [hnil]
      rfl
    · rw [if_neg (by tauto)]
      exact pairsKeys_product _ ht2 R C hR hC

/-- Claim C6: for every pair of feature-set lists and every tile size in
`[1, max(|R|, |C|)]`, a successful tiled `entropy` call produces a mapping
with exactly the same key set as a successful call with the default tile
size 500 (whatever responses the engine supplied in either run): tiling
changes request partitioning only, never the set of feature-set-union keys
produced. -/
theorem c6_tiling_keyset_invariance (R C : List (Finset Nat)) (t : Nat)
    (resps resps2 : List Response) (m m2 : List (Finset Nat × Estimate))
    (h1 : 1 ≤ t) (h2 : t ≤ max R.length C.length)
    (hm : entropy R C t resps = Except.ok m)
    (hm2 : entropy R C 500 resps2 = Except.ok m2) :
    resultKeys m = resultKeys m2 := by
  rw [entropy_keys R C t h1 resps m hm,
    entropy_keys R C 500 (by omega) resps2 m2 hm2]

/-- Claim C6 (witness): row sets and col sets `[{0}]` with tile size 1
versus the default 500, both answered by a well-sized response; the key sets
coincide. -/
theorem c6_tiling_keyset_invariance_witness :
    entropy [{0}] [{0}] 1 [entResp4] = Except.ok c6m ∧
    entropy [{0}] [{0}] 500 [entResp4] = Except.ok c6m ∧
    resultKeys c6m = resultKeys c6m := by
  have hone : entropy [{0}] [{0}] 1 [entResp4] = Except.ok c6m := rfl
  have hdef : entropy [{0}] [{0}] 500 [entResp4] = Except.ok c6m := rfl
  exact ⟨hone, hdef, c6_tiling_keyset_invariance [{0}] [{0}] 1 [entResp4] [entResp4]
    c6m c6m (by decide) (by decide) hone hdef⟩

end Loom
